import Mathlib

/-!
Verification of the water-blending optimizer repository (optimizer.py, ui.py,
app.py, main.py).  Python floats are modeled as `ℚ` (decimal literals map to
their exact decimal value, e.g. `1e-6` to `1/1000000`).  Fallible Python code
is modeled with `Except PyError`.

The repository formulates, in both `WaterBlendOptimizer.optimize`
(optimizer.py) and `optimize_blending` (ui.py), the linear program

    minimize    sum_p Q_p * score_p
    subject to  sum_p Q_p = demand,   0 <= Q_p <= ub_p

and hands it to the external CBC solver (`prob.solve(PULP_CBC_CMD(msg=False))`).
The solver itself is a third-party library, not code of this repository.  For
this single-equality, box-bounded LP the optimum is obtained by filling the
variables in increasing order of objective coefficient, each up to its bound,
until the demand is exhausted; the spec (sections 4.2 and 9) states this greedy
closed form is equivalent to the LP and recommends it.  `lpAlloc` below is that
closed form, used as the semantics of the solve step: variable `i` receives
`min ub_i (max 0 (demand - S_i))` where `S_i` is the total bound of the
variables that come strictly before `i` in the order "lower coefficient first,
ties by lower index" (a deterministic tie-break).  `lpAlloc_sum_eq` proves the
resulting flows exhaust `min demand (sum of bounds)`, the feasibility fact the
LP equality constraint enforces.
-/

namespace Blending

/-- One well (row) of the source registry dataframe: columns `Qmax`, `As`,
`Cl`, `avail` (ui.py lines 136-142, app.py lines 142-152), indexed by the well
name.  `avail` is the 0/1 availability indicator (booleans are cast with
`astype(int)` in app.py line 151). -/
structure Source where
  name : String
  Qmax : ℚ
  As : ℚ
  Cl : ℚ
  avail : ℚ
deriving DecidableEq

/-- Default row, used only for positional `getD` lookups. -/
def srcDflt : Source := ⟨"", 0, 0, 0, 0⟩

/-- Python runtime errors raised by the engine: the explicit
`ValueError("La demanda supera la capacidad disponible")` (optimizer.py line
25, ui.py line 89) and the implicit `ZeroDivisionError` of float division by a
zero total flow (optimizer.py lines 42-43, ui.py lines 113-114). -/
inductive PyError where
  | valueError : String → PyError
  | zeroDivisionError : String → PyError
deriving DecidableEq

/-- Message of the capacity-exceeded `ValueError`. -/
def capacityMsg : String := "La demanda supera la capacidad disponible"

/-- Message Python attaches to a float division by zero. -/
def zeroDivMsg : String := "float division by zero"

/-- Python float division: raises `ZeroDivisionError` when the divisor is
zero, otherwise returns the quotient. -/
def pyDiv (a b : ℚ) : Except PyError ℚ :=
  if b = 0 then .error (.zeroDivisionError zeroDivMsg) else .ok (a / b)

/-- Scoring function, `WaterBlendOptimizer._compute_scores` (optimizer.py
lines 15-19) and identically ui.py lines 82-85:
`score = (w_As*(As/As_ref) + w_Cl*(Cl/Cl_ref)) / (avail + 1e-6)`. -/
def scoreOf (wAs wCl refAs refCl : ℚ) (s : Source) : ℚ :=
  (wAs * (s.As / refAs) + wCl * (s.Cl / refCl)) / (s.avail + 1e-6)

/-- Upper bound of LP variable `i`: first component of the entry list
(one entry `(upBound, score)` per `LpVariable`). -/
def entUb (ents : List (ℚ × ℚ)) (i : ℕ) : ℚ := (ents.getD i (0, 0)).1

/-- Objective coefficient of LP variable `i`. -/
def entScore (ents : List (ℚ × ℚ)) (i : ℕ) : ℚ := (ents.getD i (0, 0)).2

/-- Fill order of the greedy solution of the LP: variable `j` is filled
strictly before variable `i` when its objective coefficient is smaller, with
ties broken by position. -/
def entPrec (ents : List (ℚ × ℚ)) (j i : ℕ) : Prop :=
  entScore ents j < entScore ents i ∨ (entScore ents j = entScore ents i ∧ j < i)

instance (ents : List (ℚ × ℚ)) (j i : ℕ) : Decidable (entPrec ents j i) := by
  unfold entPrec; infer_instance

/-- Total upper bound of the variables filled strictly before variable `i`. -/
def sumBefore (ents : List (ℚ × ℚ)) (i : ℕ) : ℚ :=
  ∑ j in Finset.range ents.length, if entPrec ents j i then entUb ents j else 0

/-- Optimal solution of the LP built by the two solver functions (see the
module docstring): the greedy cheapest-coefficient-first fill, in the original
variable order. -/
def lpAlloc (ents : List (ℚ × ℚ)) (demand : ℚ) : List ℚ :=
  (List.range ents.length).map fun i =>
    min (entUb ents i) (max 0 (demand - sumBefore ents i))

/-- LP variables of `WaterBlendOptimizer.optimize` (optimizer.py lines 29-34):
`LpVariable(f"Q_{p}", 0, self.df.loc[p, "Qmax"])` — the upper bound is the
full capacity `Qmax`, with no `avail` factor. -/
def wbEntries (wAs wCl refAs refCl : ℚ) (srcs : List Source) : List (ℚ × ℚ) :=
  srcs.map fun s => (s.Qmax, scoreOf wAs wCl refAs refCl s)

/-- LP variables of `optimize_blending` (ui.py lines 93-100):
`upBound=df.loc[p, "Qmax"] * df.loc[p, "avail"]`. -/
def blendEntries (wAs wCl refAs refCl : ℚ) (srcs : List Source) : List (ℚ × ℚ) :=
  srcs.map fun s => (s.Qmax * s.avail, scoreOf wAs wCl refAs refCl s)

/-- `Qmax_available = (df["Qmax"] * df["avail"]).sum()` (optimizer.py line 23,
ui.py line 87). -/
def availCap (srcs : List Source) : ℚ :=
  (srcs.map fun s => s.Qmax * s.avail).sum

/-- Numerator of a mass-weighted concentration:
`sum(Q_opt[p] * df.loc[p, col] for p in df.index)`. -/
def blendNum (srcs : List Source) (qs : List ℚ) (f : Source → ℚ) : ℚ :=
  (List.zipWith (fun q s => q * f s) qs srcs).sum

/-- Concentration aggregation (optimizer.py lines 41-43, ui.py lines 112-114):
`Qt = sum(Q_opt.values())`, then `As_final` and `Cl_final` divide by `Qt`.
Both divisions share the divisor `Qt`, so the unguarded Python code raises
`ZeroDivisionError` exactly when `Qt == 0` (at the `As_final` line). -/
def aggregate (srcs : List Source) (qs : List ℚ) : Except PyError (ℚ × ℚ) :=
  if qs.sum = 0 then .error (.zeroDivisionError zeroDivMsg)
  else .ok (blendNum srcs qs (·.As) / qs.sum, blendNum srcs qs (·.Cl) / qs.sum)

/-- Flows returned by `WaterBlendOptimizer.optimize` for a feasible demand. -/
def wbAlloc (wAs wCl refAs refCl : ℚ) (srcs : List Source) (demand : ℚ) : List ℚ :=
  lpAlloc (wbEntries wAs wCl refAs refCl srcs) demand

/-- `WaterBlendOptimizer.optimize` (optimizer.py lines 21-45): explicit
capacity check first (`if demand > Qmax_available: raise ValueError`), then the
LP solve, then aggregation; returns `(Q_opt, As_final, Cl_final)`. -/
def wbOptimize (wAs wCl refAs refCl : ℚ) (srcs : List Source) (demand : ℚ) :
    Except PyError (List ℚ × ℚ × ℚ) :=
  if availCap srcs < demand then .error (.valueError capacityMsg)
  else
    match aggregate srcs (wbAlloc wAs wCl refAs refCl srcs demand) with
    | .error e => .error e
    | .ok (a, c) => .ok (wbAlloc wAs wCl refAs refCl srcs demand, a, c)

/-- Flows returned by `optimize_blending` for a feasible demand. -/
def blendAlloc (srcs : List Source) (demand : ℚ) (wAs wCl refAs refCl : ℚ) : List ℚ :=
  lpAlloc (blendEntries wAs wCl refAs refCl srcs) demand

/-- `optimize_blending` (ui.py lines 76-116): same structure as
`WaterBlendOptimizer.optimize` but with upper bounds `Qmax * avail` and
defaults `w_as=0.2, w_cl=0.8, As_ref=0.025, Cl_ref=35`. -/
def optimizeBlending (srcs : List Source) (demand : ℚ) (wAs wCl refAs refCl : ℚ) :
    Except PyError (List ℚ × ℚ × ℚ) :=
  if availCap srcs < demand then .error (.valueError capacityMsg)
  else
    match aggregate srcs (blendAlloc srcs demand wAs wCl refAs refCl) with
    | .error e => .error e
    | .ok (a, c) => .ok (blendAlloc srcs demand wAs wCl refAs refCl, a, c)

/-- One treatment stage (app.py lines 210-211 and 217-218):
`concentration_out = concentration_in * (1 - efficiency)`. -/
def applyEff (c eff : ℚ) : ℚ := c * (1 - eff)

/-- Catalog of pretreatment unit operations, app.py lines 10-18 (name,
efficiency for As, efficiency for Cl). -/
def UNIT_OPERATIONS : List (String × ℚ × ℚ) :=
  [("Sin pretratamiento", 0.00, 0.00),
   ("Intercambio iónico", 0.90, 0.20),
   ("Adsorción", 0.80, 0.50),
   ("Electrocoagulación", 0.90, 0.20),
   ("Biodegradación", 0.40, 0.10),
   ("Precipitación química", 0.90, 0.80),
   ("Deionización capacitiva (CDI)", 0.80, 0.60)]

/-- Fixed membrane (reverse osmosis) rejection stage, app.py line 216. -/
def RO_REJECTION : ℚ × ℚ := (0.90, 0.80)

/-- Final product concentrations after the two-stage treatment train (app.py
lines 209-218): the blended pair goes through the selected pretreatment stage
`e1` and then through the membrane stage `e2` (in the code `e2` is the fixed
`RO_REJECTION`), each stage mapping each contaminant independently through
`applyEff`. -/
def trainProduct (cA cB : ℚ) (e1 e2 : ℚ × ℚ) : ℚ × ℚ :=
  (applyEff (applyEff cA e1.1) e2.1, applyEff (applyEff cB e1.2) e2.2)

/-- Rows of the per-stage result table `df_stages` (app.py lines 225-229):
input blend, post-pretreatment, post-membrane. -/
def stageTable (cA cB : ℚ) (e1 : ℚ × ℚ) : List (ℚ × ℚ) :=
  [(cA, cB),
   (applyEff cA e1.1, applyEff cB e1.2),
   trainProduct cA cB e1 RO_REJECTION]

/-- Python `int()` applied to a float: truncation toward zero, as in
`int(edited_df["Qmax"].sum())` (ui.py line 213).  On `ℚ` this is the
truncating integer division of numerator by denominator. -/
def pyInt (q : ℚ) : ℤ := q.num / (q.den : ℤ)

/-- Sum of the `Qmax` column over all rows (availability not considered),
ui.py line 213. -/
def qmaxTotal (srcs : List Source) : ℚ :=
  (srcs.map fun s => s.Qmax).sum

/-- Demand range of the sensitivity sweep, `np.arange(10, int(sum Qmax), 2)`
(ui.py line 213): the values `10, 12, 14, ...` strictly below the truncated
total capacity, in increasing order. -/
def sweepDemands (srcs : List Source) : List ℚ :=
  (List.range (((pyInt (qmaxTotal srcs)).toNat - 10 + 1) / 2)).map
    fun j : ℕ => (10 : ℚ) + 2 * (j : ℚ)

/-- One iteration of the sweep loop (ui.py lines 216-222): try
`optimize_blending(edited_df, d)` with its default weights and reference
limits; on success keep the pair `(A, C)` appended to `As_list`/`Cl_list`, on
any exception (`except: pass`) keep nothing. -/
def sweepPoint (srcs : List Source) (d : ℚ) : Option (ℚ × ℚ) :=
  match optimizeBlending srcs d 0.2 0.8 0.025 35 with
  | .ok (_, a, c) => some (a, c)
  | .error _ => none

/-- Collected `(As, Cl)` pairs of the successful sweep iterations, in sweep
order (`As_list` and `Cl_list` of ui.py, which the single loop extends in
lockstep). -/
def sweepPairs (srcs : List Source) : List (ℚ × ℚ) :=
  (sweepDemands srcs).filterMap (sweepPoint srcs)

/-- The plotted series (ui.py lines 227-228): the collected concentration
lists are drawn against the prefix `Ds[:len(As_list)]` of the demand range. -/
def sweepSeries (srcs : List Source) : List (ℚ × ℚ × ℚ) :=
  ((sweepDemands srcs).take (sweepPairs srcs).length).zip (sweepPairs srcs)

/-- A pandas dataframe object as the callers of the engine hold it: the
registry rows plus the optional derived `score` column. -/
structure PdFrame where
  rows : List Source
  scoreCol : Option (List ℚ)
deriving DecidableEq

/-- `df.copy()`: a fresh dataframe object with equal contents; later writes to
the copy do not reach the original. -/
def pdCopy (df : PdFrame) : PdFrame := df

/-- `df["score"] = ...` (the write `_compute_scores` performs on `self.df`,
optimizer.py lines 16-19): sets the derived score column on the written
object. -/
def setScoreCol (wAs wCl refAs refCl : ℚ) (df : PdFrame) : PdFrame :=
  { df with scoreCol := some (df.rows.map (scoreOf wAs wCl refAs refCl)) }

/-- State of a `WaterBlendOptimizer` object: `self.df` and the parameters. -/
structure WBOptimizerObj where
  df : PdFrame
  wAs : ℚ
  wCl : ℚ
  refAs : ℚ
  refCl : ℚ
deriving DecidableEq

/-- `WaterBlendOptimizer.__init__` (optimizer.py lines 7-13) as a transformer
of the caller-visible state: it returns the caller's dataframe (first
component) together with the constructed object.  Line 8 reads
`self.df = df.copy()`, so the score-column write of `_compute_scores` targets
the copy held in `self.df`; the caller's object receives no write at all.  Had
the source aliased (`self.df = df`), a faithful model would have to return
`setScoreCol ... caller` in the first component instead. -/
def wbInit (caller : PdFrame) (wAs wCl refAs refCl : ℚ) : PdFrame × WBOptimizerObj :=
  (caller,
   { df := setScoreCol wAs wCl refAs refCl (pdCopy caller),
     wAs := wAs, wCl := wCl, refAs := refAs, refCl := refCl })

/-- `WaterBlendOptimizer.optimize` as a method: it only reads `self.df` (the
score column it uses equals `scoreOf` of each row, which is what `wbOptimize`
recomputes) and builds fresh LP objects; it writes no dataframe, so the object
state is returned unchanged. -/
def wbObjOptimize (o : WBOptimizerObj) (demand : ℚ) :
    WBOptimizerObj × Except PyError (List ℚ × ℚ × ℚ) :=
  (o, wbOptimize o.wAs o.wCl o.refAs o.refCl o.df.rows demand)

/-- Construct a `WaterBlendOptimizer` from the caller's dataframe and run
`optimize` once per demand in `ds` (as app.py lines 163-164 do once per button
press): returns the caller's dataframe as the engine left it, plus the
results. -/
def runSolves (caller : PdFrame) (wAs wCl refAs refCl : ℚ) (ds : List ℚ) :
    PdFrame × List (Except PyError (List ℚ × ℚ × ℚ)) :=
  let p := wbInit caller wAs wCl refAs refCl
  (p.1, ds.map fun d => (wbObjOptimize p.2 d).2)

/-- `optimize_blending` as the caller sees it (ui.py line 79 `df = df.copy()`
rebinds the local name to a copy before the score column is added): the
caller's dataframe comes back with the solve result. -/
def optimizeBlendingFrame (caller : PdFrame) (demand : ℚ) (wAs wCl refAs refCl : ℚ) :
    PdFrame × Except PyError (List ℚ × ℚ × ℚ) :=
  (caller, optimizeBlending (pdCopy caller).rows demand wAs wCl refAs refCl)

/-- Registry well-formedness as the spec's data model states it (section 3):
capacities non-negative, availability a 0/1 flag. -/
def Wf (srcs : List Source) : Prop :=
  ∀ s ∈ srcs, 0 ≤ s.Qmax ∧ (s.avail = 0 ∨ s.avail = 1)

/-- Registry with an unavailable zero-concentration well followed by an
available one: the input of the C1 counterexample. -/
def cexSrcs : List Source := [⟨"P1", 5, 0, 0, 0⟩, ⟨"P2", 10, 1, 1, 1⟩]

/-- Well W1 of the spec's end-to-end example (section 8). -/
def w1 : Source := ⟨"W1", 10, 0.004, 272.3, 1⟩

/-- Well W2 of the spec's end-to-end example (section 8). -/
def w2 : Source := ⟨"W2", 50, 0.037, 250.28, 1⟩

/-- Well W2 with its `As` concentration raised from 0.037 to 0.05 (a
score-increasing perturbation, used to witness C8). -/
def w2hi : Source := ⟨"W2", 50, 0.05, 250.28, 1⟩

/-- Two-well registry with one unavailable well, used to witness the
sensitivity sweep claim: total `Qmax` is 18 but only 12 is available, so the
sweep range contains infeasible demand values. -/
def cexSweep : List Source := [⟨"A", 12, 1, 1, 1⟩, ⟨"B", 6, 1, 1, 0⟩]

lemma fill_split (d R u : ℚ) (_hd : 0 ≤ d) (_hR : 0 ≤ R) (hu : 0 ≤ u) :
    min d R + min u (max 0 (d - R)) = min d (R + u) := by
  rcases le_total d R with h | h <;> rcases le_total u (d - R) with h2 | h2 <;>
    simp only [min_def, max_def] <;> split_ifs <;> linarith

lemma greedy_sum {L : Type*} [LinearOrder L] (π : ℕ → L) (u : ℕ → ℚ) (d : ℚ)
    (hd : 0 ≤ d) :
    ∀ s : Finset ℕ, Set.InjOn π ↑s → (∀ i ∈ s, 0 ≤ u i) →
      ∑ i in s, min (u i) (max 0 (d - ∑ j in s.filter fun j => π j < π i, u j))
        = min d (∑ i in s, u i) := by
  intro s
  induction s using Finset.strongInduction with
  | _ s ih =>
    intro hinj hu
    rcases s.eq_empty_or_nonempty with rfl | hne
    · simpa using (min_eq_right hd).symm
    · obtain ⟨m, hm, hmax⟩ := s.exists_max_image π hne
      have hmlt : ∀ j ∈ s, j ≠ m → π j < π m := fun j hj hjm =>
        lt_of_le_of_ne (hmax j hj) fun he => hjm (hinj hj hm he)
      have hfm : (s.filter fun j => π j < π m) = s.erase m := by
        ext j
        simp only [Finset.mem_filter, Finset.mem_erase]
        constructor
        · rintro ⟨hj, hlt⟩
          refine ⟨fun he => ?_, hj⟩
          exact absurd hlt (by rw [he]; exact lt_irrefl _)
        · rintro ⟨hne2, hj⟩
          exact ⟨hj, hmlt j hj hne2⟩
      have hfi : ∀ i ∈ s.erase m,
          (s.filter fun j => π j < π i) = ((s.erase m).filter fun j => π j < π i) := by
        intro i hi
        ext j
        simp only [Finset.mem_filter, Finset.mem_erase]
        constructor
        · rintro ⟨hj, hlt⟩
          refine ⟨⟨fun he => ?_, hj⟩, hlt⟩
          subst he
          exact absurd (lt_of_lt_of_le hlt (hmax i (Finset.mem_of_mem_erase hi)))
            (lt_irrefl _)
        · rintro ⟨⟨_, hj⟩, hlt⟩
          exact ⟨hj, hlt⟩
      have hRnn : 0 ≤ ∑ j in s.erase m, u j :=
        Finset.sum_nonneg fun i hi => hu i (Finset.mem_of_mem_erase hi)
      rw [← Finset.sum_erase_add s _ hm, hfm,
        Finset.sum_congr rfl fun i hi => by rw [hfi i hi],
        ih (s.erase m) (Finset.erase_ssubset hm)
          (hinj.mono (by exact_mod_cast Finset.coe_subset.2 (Finset.erase_subset m s)))
          (fun i hi => hu i (Finset.mem_of_mem_erase hi)),
        ← Finset.sum_erase_add s u hm]
      exact fill_split d _ (u m) hd hRnn (hu m hm)

lemma listRange_map_sum (n : ℕ) (f : ℕ → ℚ) :
    ((List.range n).map f).sum = ∑ i in Finset.range n, f i := by
  induction n with
  | zero => simp
  | succ n ih =>
    rw [List.range_succ, List.map_append, List.sum_append, Finset.sum_range_succ, ih]
    simp

lemma map_sum_eq_range {α : Type*} (l : List α) (g : α → ℚ) (a0 : α) :
    (l.map g).sum = ∑ i in Finset.range l.length, g (l.getD i a0) := by
  induction l with
  | nil => simp
  | cons x xs ih =>
    rw [List.map_cons, List.sum_cons, List.length_cons, Finset.sum_range_succ']
    simp only [List.getD_cons_succ, List.getD_cons_zero]
    rw [ih]
    ring

lemma entPrec_lex (ents : List (ℚ × ℚ)) (j i : ℕ) :
    entPrec ents j i ↔ toLex (entScore ents j, j) < toLex (entScore ents i, i) := by
  rw [Prod.Lex.lt_iff]
  exact Iff.rfl

lemma sumBefore_eq_filter (ents : List (ℚ × ℚ)) (i : ℕ) :
    sumBefore ents i =
      ∑ j in (Finset.range ents.length).filter
        (fun j => toLex (entScore ents j, j) < toLex (entScore ents i, i)),
        entUb ents j := by
  simp only [sumBefore, Finset.sum_filter, entPrec_lex]

lemma lpAlloc_length (ents : List (ℚ × ℚ)) (d : ℚ) :
    (lpAlloc ents d).length = ents.length := by
  simp [lpAlloc]

lemma lpAlloc_getD (ents : List (ℚ × ℚ)) (d : ℚ) (i : ℕ) (h : i < ents.length) :
    (lpAlloc ents d).getD i 0 = min (entUb ents i) (max 0 (d - sumBefore ents i)) := by
  unfold lpAlloc
  rw [List.getD_eq_getElem _ _ (by simpa using h)]
  simp

lemma lpAlloc_sum (ents : List (ℚ × ℚ)) (d : ℚ) (hd : 0 ≤ d)
    (hub : ∀ i < ents.length, 0 ≤ entUb ents i) :
    (lpAlloc ents d).sum = min d (∑ i in Finset.range ents.length, entUb ents i) := by
  unfold lpAlloc
  rw [listRange_map_sum]
  have hg := greedy_sum (L := ℚ ×ₗ ℕ) (fun i => toLex (entScore ents i, i))
    (entUb ents) d hd (Finset.range ents.length)
    (fun a _ b _ h => by simpa using congrArg (fun x => (ofLex x).2) h)
    (fun i hi => hub i (Finset.mem_range.1 hi))
  rw [← hg]
  exact Finset.sum_congr rfl fun i _ => by rw [sumBefore_eq_filter]

lemma lpAlloc_getD_bounds (ents : List (ℚ × ℚ)) (d : ℚ) (i : ℕ)
    (h : i < ents.length) (hub : 0 ≤ entUb ents i) :
    0 ≤ (lpAlloc ents d).getD i 0 ∧ (lpAlloc ents d).getD i 0 ≤ entUb ents i := by
  rw [lpAlloc_getD ents d i h]
  exact ⟨le_min hub (le_max_left 0 _), min_le_left _ _⟩

lemma lpAlloc_getD_zero (ents : List (ℚ × ℚ)) (d : ℚ) (i c : ℕ)
    (hi : i < ents.length) (hc : c < ents.length)
    (hub : 0 ≤ entUb ents i)
    (hnn : ∀ j < ents.length, 0 ≤ entUb ents j)
    (hcheap : entScore ents c < entScore ents i)
    (hcap : d ≤ entUb ents c) :
    (lpAlloc ents d).getD i 0 = 0 := by
  rw [lpAlloc_getD ents d i hi]
  have hterm : entUb ents c ≤ sumBefore ents i := by
    rw [sumBefore]
    have := Finset.single_le_sum
      (f := fun j => if entPrec ents j i then entUb ents j else 0)
      (fun j hj => by
        by_cases hp : entPrec ents j i
        · simpa [hp] using hnn j (Finset.mem_range.1 hj)
        · simp [hp])
      (Finset.mem_range.2 hc)
    simpa [entPrec, hcheap] using this
  have hmax : max 0 (d - sumBefore ents i) = 0 :=
    max_eq_left (by linarith)
  rw [hmax]
  exact min_eq_right hub

lemma wbEntries_length (wAs wCl refAs refCl : ℚ) (srcs : List Source) :
    (wbEntries wAs wCl refAs refCl srcs).length = srcs.length := by
  simp [wbEntries]

lemma blendEntries_length (wAs wCl refAs refCl : ℚ) (srcs : List Source) :
    (blendEntries wAs wCl refAs refCl srcs).length = srcs.length := by
  simp [blendEntries]

lemma entUb_wb (wAs wCl refAs refCl : ℚ) (srcs : List Source) (i : ℕ)
    (h : i < srcs.length) :
    entUb (wbEntries wAs wCl refAs refCl srcs) i = (srcs.getD i srcDflt).Qmax := by
  unfold entUb wbEntries
  rw [List.getD_eq_getElem _ _ (by simpa using h), List.getElem_map,
    ← List.getD_eq_getElem _ srcDflt h]

lemma entScore_wb (wAs wCl refAs refCl : ℚ) (srcs : List Source) (i : ℕ)
    (h : i < srcs.length) :
    entScore (wbEntries wAs wCl refAs refCl srcs) i
      = scoreOf wAs wCl refAs refCl (srcs.getD i srcDflt) := by
  unfold entScore wbEntries
  rw [List.getD_eq_getElem _ _ (by simpa using h), List.getElem_map,
    ← List.getD_eq_getElem _ srcDflt h]

lemma entUb_blend (wAs wCl refAs refCl : ℚ) (srcs : List Source) (i : ℕ)
    (h : i < srcs.length) :
    entUb (blendEntries wAs wCl refAs refCl srcs) i
      = (srcs.getD i srcDflt).Qmax * (srcs.getD i srcDflt).avail := by
  unfold entUb blendEntries
  rw [List.getD_eq_getElem _ _ (by simpa using h), List.getElem_map,
    ← List.getD_eq_getElem _ srcDflt h]

lemma entScore_blend (wAs wCl refAs refCl : ℚ) (srcs : List Source) (i : ℕ)
    (h : i < srcs.length) :
    entScore (blendEntries wAs wCl refAs refCl srcs) i
      = scoreOf wAs wCl refAs refCl (srcs.getD i srcDflt) := by
  unfold entScore blendEntries
  rw [List.getD_eq_getElem _ _ (by simpa using h), List.getElem_map,
    ← List.getD_eq_getElem _ srcDflt h]

lemma wf_getD {srcs : List Source} (hwf : Wf srcs) {i : ℕ} (h : i < srcs.length) :
    0 ≤ (srcs.getD i srcDflt).Qmax ∧
      ((srcs.getD i srcDflt).avail = 0 ∨ (srcs.getD i srcDflt).avail = 1) := by
  rw [List.getD_eq_getElem _ srcDflt h]
  exact hwf _ (List.getElem_mem h)

lemma wf_ub_nonneg {srcs : List Source} (hwf : Wf srcs) {i : ℕ}
    (h : i < srcs.length) :
    0 ≤ (srcs.getD i srcDflt).Qmax * (srcs.getD i srcDflt).avail := by
  obtain ⟨hq, ha⟩ := wf_getD hwf h
  rcases ha with ha | ha <;> rw [ha] <;> linarith

lemma sum_entUb_wb (wAs wCl refAs refCl : ℚ) (srcs : List Source) :
    ∑ i in Finset.range (wbEntries wAs wCl refAs refCl srcs).length,
      entUb (wbEntries wAs wCl refAs refCl srcs) i = qmaxTotal srcs := by
  rw [wbEntries_length, qmaxTotal, map_sum_eq_range srcs _ srcDflt]
  exact Finset.sum_congr rfl fun i hi => entUb_wb _ _ _ _ _ _ (Finset.mem_range.1 hi)

lemma sum_entUb_blend (wAs wCl refAs refCl : ℚ) (srcs : List Source) :
    ∑ i in Finset.range (blendEntries wAs wCl refAs refCl srcs).length,
      entUb (blendEntries wAs wCl refAs refCl srcs) i = availCap srcs := by
  rw [blendEntries_length, availCap, map_sum_eq_range srcs _ srcDflt]
  exact Finset.sum_congr rfl fun i hi => entUb_blend _ _ _ _ _ _ (Finset.mem_range.1 hi)

lemma availCap_le_qmaxTotal {srcs : List Source} (hwf : Wf srcs) :
    availCap srcs ≤ qmaxTotal srcs := by
  rw [availCap, qmaxTotal, map_sum_eq_range srcs _ srcDflt,
    map_sum_eq_range srcs (fun s => s.Qmax) srcDflt]
  refine Finset.sum_le_sum fun i hi => ?_
  obtain ⟨hq, ha⟩ := wf_getD hwf (Finset.mem_range.1 hi)
  rcases ha with ha | ha <;> rw [ha] <;> linarith

lemma availCap_nonneg {srcs : List Source} (hwf : Wf srcs) : 0 ≤ availCap srcs := by
  rw [availCap, map_sum_eq_range srcs _ srcDflt]
  exact Finset.sum_nonneg fun i hi => wf_ub_nonneg hwf (Finset.mem_range.1 hi)

lemma wbAlloc_sum {wAs wCl refAs refCl : ℚ} {srcs : List Source} {d : ℚ}
    (hwf : Wf srcs) (hd : 0 ≤ d) (hle : d ≤ availCap srcs) :
    (wbAlloc wAs wCl refAs refCl srcs d).sum = d := by
  rw [wbAlloc, lpAlloc_sum _ _ hd (fun i hi => by
    rw [entUb_wb _ _ _ _ _ _ (by simpa [wbEntries_length] using hi)]
    exact (wf_getD hwf (by simpa [wbEntries_length] using hi)).1),
    sum_entUb_wb]
  exact min_eq_left (le_trans hle (availCap_le_qmaxTotal hwf))

lemma blendAlloc_sum {wAs wCl refAs refCl : ℚ} {srcs : List Source} {d : ℚ}
    (hwf : Wf srcs) (hd : 0 ≤ d) (hle : d ≤ availCap srcs) :
    (blendAlloc srcs d wAs wCl refAs refCl).sum = d := by
  rw [blendAlloc, lpAlloc_sum _ _ hd (fun i hi => by
    rw [entUb_blend _ _ _ _ _ _ (by simpa [blendEntries_length] using hi)]
    exact wf_ub_nonneg hwf (by simpa [blendEntries_length] using hi)),
    sum_entUb_blend]
  exact min_eq_left hle

lemma wbOptimize_ok {wAs wCl refAs refCl : ℚ} {srcs : List Source} {d : ℚ}
    (hwf : Wf srcs) (hd : 0 < d) (hle : d ≤ availCap srcs) :
    wbOptimize wAs wCl refAs refCl srcs d
      = .ok (wbAlloc wAs wCl refAs refCl srcs d,
          blendNum srcs (wbAlloc wAs wCl refAs refCl srcs d) (·.As) / d,
          blendNum srcs (wbAlloc wAs wCl refAs refCl srcs d) (·.Cl) / d) := by
  have hsum : (wbAlloc wAs wCl refAs refCl srcs d).sum = d :=
    wbAlloc_sum hwf (le_of_lt hd) hle
  rw [wbOptimize, if_neg (by exact not_lt.2 hle), aggregate, hsum,
    if_neg (by exact ne_of_gt hd)]

lemma blendOptimize_ok {wAs wCl refAs refCl : ℚ} {srcs : List Source} {d : ℚ}
    (hwf : Wf srcs) (hd : 0 < d) (hle : d ≤ availCap srcs) :
    optimizeBlending srcs d wAs wCl refAs refCl
      = .ok (blendAlloc srcs d wAs wCl refAs refCl,
          blendNum srcs (blendAlloc srcs d wAs wCl refAs refCl) (·.As) / d,
          blendNum srcs (blendAlloc srcs d wAs wCl refAs refCl) (·.Cl) / d) := by
  have hsum : (blendAlloc srcs d wAs wCl refAs refCl).sum = d :=
    blendAlloc_sum hwf (le_of_lt hd) hle
  rw [optimizeBlending, if_neg (by exact not_lt.2 hle), aggregate, hsum,
    if_neg (by exact ne_of_gt hd)]

lemma aggregate_error {srcs : List Source} {qs : List ℚ} {e : PyError}
    (h : aggregate srcs qs = .error e) : e = .zeroDivisionError zeroDivMsg := by
  rw [aggregate] at h
  by_cases h0 : qs.sum = 0
  · rw [if_pos h0] at h
    exact (Except.error.inj h).symm
  · rw [if_neg h0] at h
    exact Except.noConfusion h

lemma aggregate_zero {srcs : List Source} {qs : List ℚ} (h : qs.sum = 0) :
    aggregate srcs qs = .error (.zeroDivisionError zeroDivMsg) := by
  rw [aggregate, if_pos h]

lemma lpAlloc_all_zero (ents : List (ℚ × ℚ))
    (hub : ∀ i < ents.length, 0 ≤ entUb ents i) :
    ∀ q ∈ lpAlloc ents 0, q = 0 := by
  intro q hq
  rw [lpAlloc, List.mem_map] at hq
  obtain ⟨i, hi, rfl⟩ := hq
  rw [List.mem_range] at hi
  have hS : 0 ≤ sumBefore ents i :=
    Finset.sum_nonneg fun j hj => by
      by_cases hp : entPrec ents j i
      · simpa [hp] using hub j (Finset.mem_range.1 hj)
      · simp [hp]
  have hm : max 0 (0 - sumBefore ents i) = 0 := max_eq_left (by linarith)
  rw [hm]
  exact min_eq_right (hub i hi)

lemma lpAlloc_two (u1 u2 s1 s2 d : ℚ) (h : s1 < s2) :
    lpAlloc [(u1, s1), (u2, s2)] d = [min u1 (max 0 d), min u2 (max 0 (d - u1))] := by
  have e0 : entScore [(u1, s1), (u2, s2)] 0 = s1 := rfl
  have e1 : entScore [(u1, s1), (u2, s2)] 1 = s2 := rfl
  have c00 : ¬ entPrec [(u1, s1), (u2, s2)] 0 0 := by simp [entPrec, e0]
  have c10 : ¬ entPrec [(u1, s1), (u2, s2)] 1 0 := by
    simp only [entPrec, e0, e1]
    push_neg
    exact ⟨not_lt.1 (asymm h), fun he => absurd he (ne_of_gt h)⟩
  have c01 : entPrec [(u1, s1), (u2, s2)] 0 1 := Or.inl h
  have c11 : ¬ entPrec [(u1, s1), (u2, s2)] 1 1 := by simp [entPrec, e1]
  have hS0 : sumBefore [(u1, s1), (u2, s2)] 0 = 0 := by
    rw [sumBefore, show ([(u1, s1), (u2, s2)] : List (ℚ × ℚ)).length = 2 from rfl,
      Finset.sum_range_succ, Finset.sum_range_succ, Finset.sum_range_zero,
      if_neg c00, if_neg c10]
    simp
  have hS1 : sumBefore [(u1, s1), (u2, s2)] 1 = u1 := by
    rw [sumBefore, show ([(u1, s1), (u2, s2)] : List (ℚ × ℚ)).length = 2 from rfl,
      Finset.sum_range_succ, Finset.sum_range_succ, Finset.sum_range_zero,
      if_pos c01, if_neg c11]
    simp [entUb]
  rw [lpAlloc, show ([(u1, s1), (u2, s2)] : List (ℚ × ℚ)).length = 2 from rfl,
    show List.range 2 = [0, 1] from rfl]
  simp only [List.map_cons, List.map_nil, hS0, hS1]
  rw [show entUb [(u1, s1), (u2, s2)] 0 = u1 from rfl,
    show entUb [(u1, s1), (u2, s2)] 1 = u2 from rfl, sub_zero]

lemma sweepPoint_eq (srcs : List Source) (d : ℚ) (hwf : Wf srcs) (hd : 0 < d) :
    sweepPoint srcs d =
      if availCap srcs < d then none
      else some (blendNum srcs (blendAlloc srcs d 0.2 0.8 0.025 35) (·.As) / d,
                 blendNum srcs (blendAlloc srcs d 0.2 0.8 0.025 35) (·.Cl) / d) := by
  by_cases hlt : availCap srcs < d
  · rw [if_pos hlt]
    unfold sweepPoint
    rw [show optimizeBlending srcs d 0.2 0.8 0.025 35
        = .error (.valueError capacityMsg) by
      unfold optimizeBlending
      rw [if_pos hlt]]
  · rw [if_neg hlt]
    unfold sweepPoint
    rw [blendOptimize_ok hwf hd (not_lt.1 hlt)]

lemma sweep_members (srcs : List Source) (hwf : Wf srcs) :
    ∀ ds : List ℚ, ds.Pairwise (· < ·) → (∀ x ∈ ds, 0 < x) →
      ∀ tr ∈ (ds.take (ds.filterMap (sweepPoint srcs)).length).zip
          (ds.filterMap (sweepPoint srcs)),
        0 < tr.1 ∧ tr.1 ≤ availCap srcs ∧ tr.1 ∈ ds ∧
          optimizeBlending srcs tr.1 0.2 0.8 0.025 35
            = .ok (blendAlloc srcs tr.1 0.2 0.8 0.025 35, tr.2.1, tr.2.2) := by
  intro ds
  induction ds with
  | nil => intro _ _ tr htr; simp at htr
  | cons d ds ih =>
    intro hpw hpos tr htr
    have hd : 0 < d := hpos d (List.mem_cons_self _ _)
    by_cases hlt : availCap srcs < d
    · have hfp : sweepPoint srcs d = none := by
        rw [sweepPoint_eq srcs d hwf hd, if_pos hlt]
      have hall : ds.filterMap (sweepPoint srcs) = [] := by
        rw [List.filterMap_eq_nil_iff]
        intro x hx
        have hx0 : 0 < x := hpos x (List.mem_cons_of_mem _ hx)
        have hgtx : availCap srcs < x :=
          lt_trans hlt (List.rel_of_pairwise_cons hpw hx)
        rw [sweepPoint_eq srcs x hwf hx0, if_pos hgtx]
      rw [List.filterMap_cons, hfp, hall] at htr
      simp at htr
    · have hle : d ≤ availCap srcs := not_lt.1 hlt
      have hfp : sweepPoint srcs d
          = some (blendNum srcs (blendAlloc srcs d 0.2 0.8 0.025 35) (·.As) / d,
                  blendNum srcs (blendAlloc srcs d 0.2 0.8 0.025 35) (·.Cl) / d) := by
        rw [sweepPoint_eq srcs d hwf hd, if_neg hlt]
      rw [List.filterMap_cons, hfp, List.length_cons, List.take_succ_cons,
        List.zip_cons_cons] at htr
      rcases List.mem_cons.1 htr with rfl | htl
      · exact ⟨hd, hle, List.mem_cons_self _ _,
          blendOptimize_ok hwf hd hle⟩
      · obtain ⟨h1, h2, h3, h4⟩ := ih (List.Pairwise.of_cons hpw)
          (fun x hx => hpos x (List.mem_cons_of_mem _ hx)) tr htl
        exact ⟨h1, h2, List.mem_cons_of_mem _ h3, h4⟩

/-- C2: the blend solver raises the capacity-exceeded `ValueError` if and only
if the demand exceeds the sum of `Qmax * avail` over the sources, in both
`WaterBlendOptimizer.optimize` and `optimize_blending`; for any demand at or
below that sum no capacity error is raised (the explicit check precedes the
solve, and the only other failure the solve path can produce is the zero-flow
division error). -/
theorem c2_theorem (wAs wCl refAs refCl : ℚ) (srcs : List Source) (d : ℚ) :
    (wbOptimize wAs wCl refAs refCl srcs d = .error (.valueError capacityMsg)
        ↔ availCap srcs < d) ∧
      (optimizeBlending srcs d wAs wCl refAs refCl = .error (.valueError capacityMsg)
        ↔ availCap srcs < d) := by
  constructor
  · constructor
    · intro h
      by_contra hlt
      rw [wbOptimize, if_neg hlt] at h
      rcases h2 : aggregate srcs (wbAlloc wAs wCl refAs refCl srcs d) with e | p
      · rw [h2] at h
        have he := aggregate_error h2
        subst he
        simp [capacityMsg, zeroDivMsg] at h
      · rcases p with ⟨a, c⟩
        rw [h2] at h
        simp at h
    · intro hlt
      rw [wbOptimize, if_pos hlt]
  · constructor
    · intro h
      by_contra hlt
      rw [optimizeBlending, if_neg hlt] at h
      rcases h2 : aggregate srcs (blendAlloc srcs d wAs wCl refAs refCl) with e | p
      · rw [h2] at h
        have he := aggregate_error h2
        subst he
        simp [capacityMsg, zeroDivMsg] at h
      · rcases p with ⟨a, c⟩
        rw [h2] at h
        simp at h
    · intro hlt
      rw [optimizeBlending, if_pos hlt]

/-- C3: with demand exactly 0 (and a well-formed registry) both solver
functions compute the zero allocation, and the aggregation then divides the
concentration numerators by the zero total flow, so the call fails with the
runtime `ZeroDivisionError` — not with any explicitly raised
undefined-concentration error (the only `raise` in the code is the capacity
`ValueError`). -/
theorem c3_theorem (wAs wCl refAs refCl : ℚ) (srcs : List Source) (hwf : Wf srcs) :
    (∀ q ∈ wbAlloc wAs wCl refAs refCl srcs 0, q = 0) ∧
      wbOptimize wAs wCl refAs refCl srcs 0 = .error (.zeroDivisionError zeroDivMsg) ∧
      (∀ q ∈ blendAlloc srcs 0 wAs wCl refAs refCl, q = 0) ∧
      optimizeBlending srcs 0 wAs wCl refAs refCl
        = .error (.zeroDivisionError zeroDivMsg) := by
  have hub1 : ∀ i < (wbEntries wAs wCl refAs refCl srcs).length,
      0 ≤ entUb (wbEntries wAs wCl refAs refCl srcs) i := fun i hi => by
    rw [entUb_wb _ _ _ _ _ _ (by simpa [wbEntries_length] using hi)]
    exact (wf_getD hwf (by simpa [wbEntries_length] using hi)).1
  have hub2 : ∀ i < (blendEntries wAs wCl refAs refCl srcs).length,
      0 ≤ entUb (blendEntries wAs wCl refAs refCl srcs) i := fun i hi => by
    rw [entUb_blend _ _ _ _ _ _ (by simpa [blendEntries_length] using hi)]
    exact wf_ub_nonneg hwf (by simpa [blendEntries_length] using hi)
  have hz1 : ∀ q ∈ wbAlloc wAs wCl refAs refCl srcs 0, q = 0 :=
    lpAlloc_all_zero _ hub1
  have hz2 : ∀ q ∈ blendAlloc srcs 0 wAs wCl refAs refCl, q = 0 :=
    lpAlloc_all_zero _ hub2
  have hnn := availCap_nonneg hwf
  refine ⟨hz1, ?_, hz2, ?_⟩
  · rw [wbOptimize, if_neg (not_lt.2 hnn), aggregate_zero (List.sum_eq_zero hz1)]
  · rw [optimizeBlending, if_neg (not_lt.2 hnn), aggregate_zero (List.sum_eq_zero hz2)]

/-- C3 witness: the zero-demand behavior at a concrete two-well registry. -/
theorem c3_witness :
    Wf [⟨"P1", 5, 1, 2, 1⟩, ⟨"P2", 10, 3, 4, 0⟩] ∧
      ((∀ q ∈ wbAlloc 0.3 0.2 0.025 320 [⟨"P1", 5, 1, 2, 1⟩, ⟨"P2", 10, 3, 4, 0⟩] 0, q = 0) ∧
        wbOptimize 0.3 0.2 0.025 320 [⟨"P1", 5, 1, 2, 1⟩, ⟨"P2", 10, 3, 4, 0⟩] 0
          = .error (.zeroDivisionError zeroDivMsg) ∧
        (∀ q ∈ blendAlloc [⟨"P1", 5, 1, 2, 1⟩, ⟨"P2", 10, 3, 4, 0⟩] 0 0.3 0.2 0.025 320, q = 0) ∧
        optimizeBlending [⟨"P1", 5, 1, 2, 1⟩, ⟨"P2", 10, 3, 4, 0⟩] 0 0.3 0.2 0.025 320
          = .error (.zeroDivisionError zeroDivMsg)) :=
  ⟨by
    intro s hs
    simp only [List.mem_cons, List.not_mem_nil, or_false] at hs
    rcases hs with rfl | rfl <;> norm_num,
   c3_theorem 0.3 0.2 0.025 320 _ (by
    intro s hs
    simp only [List.mem_cons, List.not_mem_nil, or_false] at hs
    rcases hs with rfl | rfl <;> norm_num)⟩

/-- C5: the scoring function computes
`score(s) = (wA*As/refA + wB*Cl/refB) / (avail + eps)` with `eps = 1e-6 =
1/1000000`, and for an unavailable source (`avail = 0`) the score is exactly
`1000000` times the weighted normalized concentration sum — the inflation by a
factor of `1/eps` the claim describes. -/
theorem c5_theorem (wAs wCl refAs refCl : ℚ) (s : Source) :
    scoreOf wAs wCl refAs refCl s
        = (wAs * (s.As / refAs) + wCl * (s.Cl / refCl)) / (s.avail + 1 / 1000000) ∧
      (s.avail = 0 →
        scoreOf wAs wCl refAs refCl s
          = 1000000 * (wAs * (s.As / refAs) + wCl * (s.Cl / refCl))) := by
  constructor
  · rw [scoreOf]
    norm_num
  · intro h
    rw [scoreOf, h]
    rw [show (0 : ℚ) + 1e-6 = 1 / 1000000 by norm_num]
    rw [div_eq_mul_inv]
    norm_num [mul_comm]

/-- C5 witness: evaluation at a concrete unavailable source. -/
theorem c5_witness :
    scoreOf 1 1 1 1 ⟨"w", 0, 2, 3, 0⟩
      = 1000000 * (1 * ((2 : ℚ) / 1) + 1 * ((3 : ℚ) / 1)) :=
  (c5_theorem 1 1 1 1 ⟨"w", 0, 2, 3, 0⟩).2 rfl

/-- C6: each treatment stage maps a concentration `c` to `c * (1 - eff)`
independently per contaminant, so the two-stage train produces
`C * (1-e1) * (1-e2)` per contaminant; efficiency 0 is the identity and
efficiency 1 zeroes the concentration out. -/
theorem c6_theorem (cA cB : ℚ) (e1 e2 : ℚ × ℚ)
    (_h1A : 0 ≤ e1.1 ∧ e1.1 ≤ 1) (_h1B : 0 ≤ e1.2 ∧ e1.2 ≤ 1)
    (_h2A : 0 ≤ e2.1 ∧ e2.1 ≤ 1) (_h2B : 0 ≤ e2.2 ∧ e2.2 ≤ 1) :
    trainProduct cA cB e1 e2
        = (cA * (1 - e1.1) * (1 - e2.1), cB * (1 - e1.2) * (1 - e2.2)) ∧
      applyEff cA 0 = cA ∧ applyEff cA 1 = 0 := by
  refine ⟨by simp [trainProduct, applyEff], by simp [applyEff], by simp [applyEff]⟩

/-- C6 witness: the train at a concrete blend with the efficiencies of the
Adsorción catalog entry and the fixed membrane pair. -/
theorem c6_witness :
    trainProduct 2 3 (0.80, 0.50) (0.90, 0.80)
        = (2 * (1 - (0.80 : ℚ)) * (1 - (0.90 : ℚ)),
           3 * (1 - (0.50 : ℚ)) * (1 - (0.80 : ℚ))) ∧
      applyEff 2 0 = 2 ∧ applyEff 2 1 = 0 :=
  c6_theorem 2 3 (0.80, 0.50) (0.90, 0.80)
    (by norm_num) (by norm_num) (by norm_num) (by norm_num)

/-- C9: both solver functions are deterministic functions of their inputs —
two invocations on identical registries, demands, weights and reference limits
return identical allocations and blended concentrations. -/
theorem c9_theorem (srcs1 srcs2 : List Source) (d1 d2 wAs wCl refAs refCl : ℚ)
    (hs : srcs1 = srcs2) (hd : d1 = d2) :
    optimizeBlending srcs1 d1 wAs wCl refAs refCl
        = optimizeBlending srcs2 d2 wAs wCl refAs refCl ∧
      wbOptimize wAs wCl refAs refCl srcs1 d1
        = wbOptimize wAs wCl refAs refCl srcs2 d2 := by
  subst hs
  subst hd
  exact ⟨rfl, rfl⟩

/-- C9 witness: two identical concrete invocations agree. -/
theorem c9_witness :
    optimizeBlending [⟨"P1", 10, 1, 2, 1⟩] 5 0.2 0.8 0.025 35
        = optimizeBlending [⟨"P1", 10, 1, 2, 1⟩] 5 0.2 0.8 0.025 35 ∧
      wbOptimize 0.2 0.8 0.025 35 [⟨"P1", 10, 1, 2, 1⟩] 5
        = wbOptimize 0.2 0.8 0.025 35 [⟨"P1", 10, 1, 2, 1⟩] 5 :=
  c9_theorem [⟨"P1", 10, 1, 2, 1⟩] [⟨"P1", 10, 1, 2, 1⟩] 5 5 0.2 0.8 0.025 35 rfl rfl

/-- C10: constructing a `WaterBlendOptimizer` (which copies the dataframe and
adds the derived score column to the copy) and running `optimize` any number
of times leaves the caller's dataframe untouched, as does `optimize_blending`;
the score column lands only on the internal copy. -/
theorem c10_theorem (caller : PdFrame) (wAs wCl refAs refCl d : ℚ) (ds : List ℚ) :
    (runSolves caller wAs wCl refAs refCl ds).1 = caller ∧
      (wbInit caller wAs wCl refAs refCl).1 = caller ∧
      (optimizeBlendingFrame caller d wAs wCl refAs refCl).1 = caller ∧
      (wbInit caller wAs wCl refAs refCl).2.df.scoreCol
        = some (caller.rows.map (scoreOf wAs wCl refAs refCl)) :=
  ⟨rfl, rfl, rfl, rfl⟩

/-- C1 (amended): for a well-formed registry and any demand `d` with
`0 < d ≤ sum of Qmax*avail`, both solvers succeed and return flows that sum
exactly to `d` (exact in `ℚ`, hence within any floating-point tolerance) with
each flow in `[0, Qmax]`; in `optimize_blending` every `avail = 0` source has
LP upper bound `Qmax * avail = 0` and therefore flow exactly 0.  (The original
claim asserted the zero upper bound for `WaterBlendOptimizer.optimize` as
well; there the bound is the full `Qmax` — see `c1_counterexample`.) -/
theorem c1_theorem (wAs wCl refAs refCl : ℚ) (srcs : List Source) (d : ℚ)
    (hwf : Wf srcs) (hd : 0 < d) (hle : d ≤ availCap srcs) :
    (∃ a c, wbOptimize wAs wCl refAs refCl srcs d
        = .ok (wbAlloc wAs wCl refAs refCl srcs d, a, c)) ∧
      (wbAlloc wAs wCl refAs refCl srcs d).sum = d ∧
      (∀ i, i < srcs.length →
        0 ≤ (wbAlloc wAs wCl refAs refCl srcs d).getD i 0 ∧
          (wbAlloc wAs wCl refAs refCl srcs d).getD i 0
            ≤ (srcs.getD i srcDflt).Qmax) ∧
      (∃ a c, optimizeBlending srcs d wAs wCl refAs refCl
        = .ok (blendAlloc srcs d wAs wCl refAs refCl, a, c)) ∧
      (blendAlloc srcs d wAs wCl refAs refCl).sum = d ∧
      (∀ i, i < srcs.length →
        0 ≤ (blendAlloc srcs d wAs wCl refAs refCl).getD i 0 ∧
          (blendAlloc srcs d wAs wCl refAs refCl).getD i 0
            ≤ (srcs.getD i srcDflt).Qmax ∧
          ((srcs.getD i srcDflt).avail = 0 →
            entUb (blendEntries wAs wCl refAs refCl srcs) i = 0 ∧
              (blendAlloc srcs d wAs wCl refAs refCl).getD i 0 = 0)) := by
  refine ⟨⟨_, _, wbOptimize_ok hwf hd hle⟩, wbAlloc_sum hwf hd.le hle, ?_,
    ⟨_, _, blendOptimize_ok hwf hd hle⟩, blendAlloc_sum hwf hd.le hle, ?_⟩
  · intro i hi
    have hil : i < (wbEntries wAs wCl refAs refCl srcs).length := by
      simpa [wbEntries_length] using hi
    have hub : 0 ≤ entUb (wbEntries wAs wCl refAs refCl srcs) i := by
      rw [entUb_wb _ _ _ _ _ _ hi]
      exact (wf_getD hwf hi).1
    have hb := lpAlloc_getD_bounds (wbEntries wAs wCl refAs refCl srcs) d i hil hub
    exact ⟨hb.1, le_trans hb.2 (le_of_eq (entUb_wb _ _ _ _ _ _ hi))⟩
  · intro i hi
    have hil : i < (blendEntries wAs wCl refAs refCl srcs).length := by
      simpa [blendEntries_length] using hi
    have hub : 0 ≤ entUb (blendEntries wAs wCl refAs refCl srcs) i := by
      rw [entUb_blend _ _ _ _ _ _ hi]
      exact wf_ub_nonneg hwf hi
    have hb := lpAlloc_getD_bounds (blendEntries wAs wCl refAs refCl srcs) d i hil hub
    obtain ⟨hq, ha⟩ := wf_getD hwf hi
    have hble : entUb (blendEntries wAs wCl refAs refCl srcs) i
        ≤ (srcs.getD i srcDflt).Qmax := by
      rw [entUb_blend _ _ _ _ _ _ hi]
      rcases ha with ha | ha <;> rw [ha] <;> linarith
    refine ⟨hb.1, le_trans hb.2 hble, fun h0 => ?_⟩
    have hub0 : entUb (blendEntries wAs wCl refAs refCl srcs) i = 0 := by
      rw [entUb_blend _ _ _ _ _ _ hi, h0, mul_zero]
    exact ⟨hub0, le_antisymm (hub0 ▸ hb.2) hb.1⟩

/-- C1 counterexample: in `WaterBlendOptimizer.optimize` the upper bound of an
unavailable source is its full capacity (optimizer.py line 30 has no `avail`
factor), so for the registry `cexSrcs` — whose unavailable well P1 has zero
concentrations and hence score 0 — the solve at the feasible demand 5
allocates all 5 units to the unavailable well P1 instead of giving it exactly
0 flow. -/
theorem c1_counterexample :
    (cexSrcs.getD 0 srcDflt).avail = 0 ∧ (0 : ℚ) < 5 ∧ (5 : ℚ) ≤ availCap cexSrcs ∧
      entUb (wbEntries 0.3 0.2 0.025 320 cexSrcs) 0 = 5 ∧
      (wbAlloc 0.3 0.2 0.025 320 cexSrcs 5).getD 0 0 = 5 ∧
      wbOptimize 0.3 0.2 0.025 320 cexSrcs 5 = .ok ([5, 0], 0, 0) := by
  have hav : availCap cexSrcs = 10 := by norm_num [availCap, cexSrcs]
  have hs1 : scoreOf 0.3 0.2 0.025 320 (⟨"P1", 5, 0, 0, 0⟩ : Source) = 0 := by
    norm_num [scoreOf]
  have hs2 : 0 < scoreOf 0.3 0.2 0.025 320 (⟨"P2", 10, 1, 1, 1⟩ : Source) := by
    norm_num [scoreOf]
  have hents : wbEntries 0.3 0.2 0.025 320 cexSrcs
      = [(5, (0 : ℚ)), (10, scoreOf 0.3 0.2 0.025 320 (⟨"P2", 10, 1, 1, 1⟩ : Source))] := by
    simp [wbEntries, cexSrcs, hs1]
  have halloc : wbAlloc 0.3 0.2 0.025 320 cexSrcs 5 = [5, 0] := by
    rw [wbAlloc, hents, lpAlloc_two _ _ _ _ _ hs2]
    norm_num
  have hwf : Wf cexSrcs := by
    intro s hs
    simp only [cexSrcs, List.mem_cons, List.not_mem_nil, or_false] at hs
    rcases hs with rfl | rfl <;> norm_num
  have hok : wbOptimize 0.3 0.2 0.025 320 cexSrcs 5
      = .ok (wbAlloc 0.3 0.2 0.025 320 cexSrcs 5,
          blendNum cexSrcs (wbAlloc 0.3 0.2 0.025 320 cexSrcs 5) (·.As) / 5,
          blendNum cexSrcs (wbAlloc 0.3 0.2 0.025 320 cexSrcs 5) (·.Cl) / 5) :=
    wbOptimize_ok hwf (by norm_num) (by rw [hav]; norm_num)
  have hnumA : blendNum cexSrcs [5, 0] (·.As) = 0 := by
    norm_num [blendNum, cexSrcs]
  have hnumC : blendNum cexSrcs [5, 0] (·.Cl) = 0 := by
    norm_num [blendNum, cexSrcs]
  refine ⟨rfl, by norm_num, by rw [hav]; norm_num, by rw [hents]; rfl,
    by rw [halloc]; rfl, ?_⟩
  rw [hok, halloc, hnumA, hnumC]
  norm_num

/-- C1 witness: the amended theorem applied to a concrete one-well registry at
demand 3: the returned flows sum to 3. -/
theorem c1_witness :
    (wbAlloc 0.2 0.8 0.025 35 [⟨"P1", 5, 1, 2, 1⟩] 3).sum = 3 :=
  (c1_theorem 0.2 0.8 0.025 35 [⟨"P1", 5, 1, 2, 1⟩] 3
    (by intro s hs
        simp only [List.mem_cons, List.not_mem_nil, or_false] at hs
        rcases hs with rfl
        norm_num)
    (by norm_num) (by norm_num [availCap])).2.1

/-- C4: with exactly the wells W1 and W2 of the spec's end-to-end example,
weights 0.2/0.8, reference limits 0.025/320 and demand 10, W1's score is
strictly below W2's, the solver fills the lower-score well W1 first, and both
solver functions return allocation `[10, 0]` with blended concentrations
`As = 0.004` and `Cl = 272.3`. -/
theorem c4_theorem :
    scoreOf 0.2 0.8 0.025 320 w1 < scoreOf 0.2 0.8 0.025 320 w2 ∧
      optimizeBlending [w1, w2] 10 0.2 0.8 0.025 320 = .ok ([10, 0], 0.004, 272.3) ∧
      wbOptimize 0.2 0.8 0.025 320 [w1, w2] 10 = .ok ([10, 0], 0.004, 272.3) := by
  have hsc : scoreOf 0.2 0.8 0.025 320 w1 < scoreOf 0.2 0.8 0.025 320 w2 := by
    norm_num [scoreOf, w1, w2]
  have hwf : Wf [w1, w2] := by
    intro s hs
    simp only [List.mem_cons, List.not_mem_nil, or_false] at hs
    rcases hs with rfl | rfl <;> norm_num [w1, w2]
  have hav : availCap [w1, w2] = 60 := by norm_num [availCap, w1, w2]
  have hbents : blendEntries 0.2 0.8 0.025 320 [w1, w2]
      = [(10, scoreOf 0.2 0.8 0.025 320 w1), (50, scoreOf 0.2 0.8 0.025 320 w2)] := by
    simp [blendEntries, w1, w2]
  have hwents : wbEntries 0.2 0.8 0.025 320 [w1, w2]
      = [(10, scoreOf 0.2 0.8 0.025 320 w1), (50, scoreOf 0.2 0.8 0.025 320 w2)] := by
    simp [wbEntries, w1, w2]
  have hballoc : blendAlloc [w1, w2] 10 0.2 0.8 0.025 320 = [10, 0] := by
    rw [blendAlloc, hbents, lpAlloc_two _ _ _ _ _ hsc]
    norm_num
  have hwalloc : wbAlloc 0.2 0.8 0.025 320 [w1, w2] 10 = [10, 0] := by
    rw [wbAlloc, hwents, lpAlloc_two _ _ _ _ _ hsc]
    norm_num
  have hnumA : blendNum [w1, w2] [10, 0] (·.As) = 0.04 := by
    norm_num [blendNum, w1, w2]
  have hnumC : blendNum [w1, w2] [10, 0] (·.Cl) = 2723 := by
    norm_num [blendNum, w1, w2]
  refine ⟨hsc, ?_, ?_⟩
  · rw [blendOptimize_ok hwf (by norm_num) (by rw [hav]; norm_num),
      hballoc, hnumA, hnumC]
    norm_num
  · rw [wbOptimize_ok hwf (by norm_num) (by rw [hav]; norm_num),
      hwalloc, hnumA, hnumC]
    norm_num

/-- C7: for any well-formed registry, the sweep's demand range is strictly
increasing; the plotted series is no longer than the range; every plotted
triple comes from a demand of the range whose solve succeeded (demand at most
the available capacity) and carries exactly that solve's blended
concentrations; and every demand of the range that exceeds the available
capacity yields no collected point and appears nowhere in the series — it is
skipped silently while the rest of the sweep continues. -/
theorem c7_theorem (srcs : List Source) (hwf : Wf srcs) :
    (sweepDemands srcs).Pairwise (· < ·) ∧
      (sweepSeries srcs).length ≤ (sweepDemands srcs).length ∧
      (∀ tr ∈ sweepSeries srcs, 0 < tr.1 ∧ tr.1 ≤ availCap srcs ∧
        tr.1 ∈ sweepDemands srcs ∧
        optimizeBlending srcs tr.1 0.2 0.8 0.025 35
          = .ok (blendAlloc srcs tr.1 0.2 0.8 0.025 35, tr.2.1, tr.2.2)) ∧
      (∀ d ∈ sweepDemands srcs, availCap srcs < d →
        sweepPoint srcs d = none ∧ ∀ tr ∈ sweepSeries srcs, tr.1 ≠ d) := by
  have hpw : (sweepDemands srcs).Pairwise (· < ·) := by
    rw [sweepDemands, List.pairwise_map]
    refine List.Pairwise.imp ?_ (List.pairwise_lt_range _)
    intro a b hab
    have hq : (a : ℚ) < b := by exact_mod_cast hab
    linarith
  have hpos : ∀ x ∈ sweepDemands srcs, 0 < x := by
    intro x hx
    rw [sweepDemands, List.mem_map] at hx
    obtain ⟨j, _, rfl⟩ := hx
    have hj : (0 : ℚ) ≤ (j : ℚ) := Nat.cast_nonneg j
    linarith
  have hmem := sweep_members srcs hwf (sweepDemands srcs) hpw hpos
  refine ⟨hpw, ?_, fun tr htr => hmem tr htr, ?_⟩
  · rw [sweepSeries, List.length_zip, List.length_take]
    exact le_trans (Nat.min_le_left _ _) (Nat.min_le_right _ _)
  · intro d hd hgt
    have hd0 : 0 < d := hpos d hd
    refine ⟨by rw [sweepPoint_eq srcs d hwf hd0, if_pos hgt], ?_⟩
    intro tr htr heq
    obtain ⟨_, hle, _, _⟩ := hmem tr htr
    rw [heq] at hle
    exact absurd hgt (not_lt.2 hle)

/-- C7 witness: the sweep theorem applied to the concrete registry
`cexSweep`, whose range contains demands beyond the available capacity: the
plotted series is no longer than the demand range. -/
theorem c7_witness :
    (sweepSeries cexSweep).length ≤ (sweepDemands cexSweep).length :=
  (c7_theorem cexSweep (by
    intro s hs
    simp only [cexSweep, List.mem_cons, List.not_mem_nil, or_false] at hs
    rcases hs with rfl | rfl <;> norm_num)).2.1

/-- C8: fix a demand below the capacity of an available well `c` that is
strictly cheaper than well `i`.  Raising well `i`'s score (holding every other
well, its own capacity and availability, and the demand fixed) never decreases
— in fact leaves unchanged, at zero — well `i`'s allocation and hence its
share relative to `c`: the greedy optimum gives `i` zero flow both before and
after the increase. -/
theorem c8_theorem (wAs wCl refAs refCl d : ℚ) (srcs srcs' : List Source) (i c : ℕ)
    (hwf : Wf srcs) (hwf' : Wf srcs') (hlen : srcs'.length = srcs.length)
    (hi : i < srcs.length) (hc : c < srcs.length) (hci : c ≠ i)
    (hothers : ∀ j, j < srcs.length → j ≠ i → srcs'.getD j srcDflt = srcs.getD j srcDflt)
    (_hQ : (srcs'.getD i srcDflt).Qmax = (srcs.getD i srcDflt).Qmax)
    (_hA : (srcs'.getD i srcDflt).avail = (srcs.getD i srcDflt).avail)
    (hinc : scoreOf wAs wCl refAs refCl (srcs.getD i srcDflt)
      ≤ scoreOf wAs wCl refAs refCl (srcs'.getD i srcDflt))
    (hcheap : scoreOf wAs wCl refAs refCl (srcs.getD c srcDflt)
      < scoreOf wAs wCl refAs refCl (srcs.getD i srcDflt))
    (hcavail : (srcs.getD c srcDflt).avail = 1)
    (hdcap : d < (srcs.getD c srcDflt).Qmax) :
    (blendAlloc srcs' d wAs wCl refAs refCl).getD i 0
        / (blendAlloc srcs' d wAs wCl refAs refCl).getD c 0
      ≥ (blendAlloc srcs d wAs wCl refAs refCl).getD i 0
          / (blendAlloc srcs d wAs wCl refAs refCl).getD c 0 ∧
      (blendAlloc srcs d wAs wCl refAs refCl).getD i 0 = 0 ∧
      (blendAlloc srcs' d wAs wCl refAs refCl).getD i 0 = 0 := by
  have hi' : i < srcs'.length := hlen ▸ hi
  have hc' : c < srcs'.length := hlen ▸ hc
  have hceq : srcs'.getD c srcDflt = srcs.getD c srcDflt := hothers c hc hci
  have h1 : (blendAlloc srcs d wAs wCl refAs refCl).getD i 0 = 0 := by
    refine lpAlloc_getD_zero _ d i c (by simpa [blendEntries_length] using hi)
      (by simpa [blendEntries_length] using hc) ?_ ?_ ?_ ?_
    · rw [entUb_blend _ _ _ _ _ _ hi]
      exact wf_ub_nonneg hwf hi
    · intro j hj
      rw [entUb_blend _ _ _ _ _ _ (by simpa [blendEntries_length] using hj)]
      exact wf_ub_nonneg hwf (by simpa [blendEntries_length] using hj)
    · rw [entScore_blend _ _ _ _ _ _ hc, entScore_blend _ _ _ _ _ _ hi]
      exact hcheap
    · rw [entUb_blend _ _ _ _ _ _ hc, hcavail, mul_one]
      exact hdcap.le
  have h2 : (blendAlloc srcs' d wAs wCl refAs refCl).getD i 0 = 0 := by
    refine lpAlloc_getD_zero _ d i c (by simpa [blendEntries_length] using hi')
      (by simpa [blendEntries_length] using hc') ?_ ?_ ?_ ?_
    · rw [entUb_blend _ _ _ _ _ _ hi']
      exact wf_ub_nonneg hwf' hi'
    · intro j hj
      rw [entUb_blend _ _ _ _ _ _ (by simpa [blendEntries_length] using hj)]
      exact wf_ub_nonneg hwf' (by simpa [blendEntries_length] using hj)
    · rw [entScore_blend _ _ _ _ _ _ hc', entScore_blend _ _ _ _ _ _ hi', hceq]
      exact lt_of_lt_of_le hcheap hinc
    · rw [entUb_blend _ _ _ _ _ _ hc', hceq, hcavail, mul_one]
      exact hdcap.le
  rw [h1, h2]
  simp

/-- C8 witness: raising W2's arsenic concentration from 0.037 to 0.05 at
demand 5 (below W1's capacity 10) leaves W2's share relative to W1 unchanged
at zero. -/
theorem c8_witness :
    (blendAlloc [w1, w2hi] 5 0.2 0.8 0.025 320).getD 1 0
        / (blendAlloc [w1, w2hi] 5 0.2 0.8 0.025 320).getD 0 0
      ≥ (blendAlloc [w1, w2] 5 0.2 0.8 0.025 320).getD 1 0
          / (blendAlloc [w1, w2] 5 0.2 0.8 0.025 320).getD 0 0 :=
  (c8_theorem 0.2 0.8 0.025 320 5 [w1, w2] [w1, w2hi] 1 0
    (by intro s hs
        simp only [List.mem_cons, List.not_mem_nil, or_false] at hs
        rcases hs with rfl | rfl <;> norm_num [w1, w2])
    (by intro s hs
        simp only [List.mem_cons, List.not_mem_nil, or_false] at hs
        rcases hs with rfl | rfl <;> norm_num [w1, w2hi])
    rfl (by norm_num) (by norm_num) (by norm_num)
    (by intro j hj hj1
        have hj2 : j < 2 := by simpa using hj
        have hj0 : j = 0 := by omega
        subst hj0
        rfl)
    rfl rfl
    (by norm_num [scoreOf, w2, w2hi])
    (by norm_num [scoreOf, w1, w2])
    rfl
    (by norm_num [w1])).1

end Blending
